import Mathlib

/-!
Shallow embedding of `src/ping.js` (tcp-probe): the per-attempt probe state
machine, the plain-mode attempt, the attempt sequencer (`check`/`connect`)
and the result aggregator, together with theorems settling the claims
about them.

Conventions of the embedding:
* JavaScript numbers used as millisecond timestamps are modelled as `ℚ`.
* Buffers are modelled as `List Nat` (their byte sequences).
* A JavaScript value that may be `undefined` is an `Option`; a field whose
  key is absent from a result object is likewise `none` (the source only
  ever inspects such fields with `typeof x === 'undefined'`, which cannot
  distinguish the two).
* Asynchronous callbacks registered on the socket and the two timers are
  modelled as events; a probe-mode attempt is a fold of its event list
  over the handler code.
-/

namespace TcpProbe

/-- Errors constructed by `src/ping.js`.  `socket e` stands for an error
object delivered by the transport (the `'error'` event argument). -/
inductive JsError where
  | responseTimeout
  | maxResponseBytesExceeded
  | requestTimeout
  | socket (code : Nat)
deriving DecidableEq, Repr

/-- The `options.match` value after the defaults merge, when it is truthy:
a Buffer pattern, a RegExp, or a function.  The compiled regular expression
and the caller's function are modelled by the Boolean predicates they
denote on the accumulated buffer (the source passes `(responseBuffer,
options)` to a function matcher; the `options` argument is closed over). -/
inductive Matcher where
  | bufPat (p : List Nat)
  | regex (test : List Nat → Bool)
  | fn (f : List Nat → Bool)

/-- Does `leadMatch hay needle` hold, i.e. is `needle` an initial run of
`hay`?  Helper for `bufIncludes`. -/
def leadMatch : List Nat → List Nat → Bool
  | _, [] => true
  | [], _ :: _ => false
  | a :: as, b :: bs => a == b && leadMatch as bs

/-- `Buffer.prototype.includes`: contiguous containment of `needle` in
`hay`. -/
def bufIncludes (hay needle : List Nat) : Bool :=
  match hay with
  | [] => leadMatch [] needle
  | _ :: t => leadMatch hay needle || bufIncludes t needle

/-- Dispatch of the `options.match` test performed on every data chunk
(src/ping.js lines 241-246). -/
def matcherTest : Matcher → List Nat → Bool
  | .bufPat p, buf => bufIncludes buf p
  | .regex t, buf => t buf
  | .fn f, buf => f buf

/-- The merged options object (src/ping.js lines 53-70), after the string
options have been converted to Buffers.  Field defaults mirror the merge
defaults.  `responseTimeout` is accepted in the options object — the
README documents it — but it is never read anywhere in `src/ping.js`. -/
structure ProbeCfg where
  address : String := "localhost"
  port : Nat := 80
  attempts : Nat := 1
  timeout : ℚ := 5000
  responseTimeout : Option ℚ := none
  encoding : String := "utf8"
  request : List Nat := []
  exitRequest : Option (List Nat) := none
  matchCfg : Option Matcher := none
  maxResponseBytes : Nat := 50000
  capture : Bool := false
  noDelay : Bool := true

/-- One element of the `results` array (src/ping.js lines 189-198 for probe
mode, 301/307/313 for plain mode).  `matchRes` embeds the `match` key,
which is a reserved word in Lean. -/
structure AttemptResult where
  seq : Nat
  conTime : Option ℚ := none
  time : Option ℚ := none
  matchRes : Option Bool := none
  err : Option JsError := none
  bytes : Option Nat := none
  data : Option (List Nat) := none
deriving DecidableEq, Repr

/-- The mutable per-attempt state of the probe-mode branch of `connect`
(src/ping.js lines 158-166), plus the slice of the shared `results` array
this attempt appends (`pushed`) and the shared counter `i` captured for
this attempt (`seqNo`). -/
structure ProbeState where
  didPushResults : Bool
  connectTime : Option ℚ
  didMatch : Bool
  didExceedResponseBytes : Bool
  didRequestExit : Bool
  lastErr : Option JsError
  responseBuffer : Option (List Nat)
  seqNo : Nat
  pushed : List AttemptResult
deriving Repr

/-- State at attempt start: every flag cleared, no buffer (it is allocated
only on connect), nothing pushed. -/
def initProbeState (i : Nat) : ProbeState :=
  { didPushResults := false
    connectTime := none
    didMatch := false
    didExceedResponseBytes := false
    didRequestExit := false
    lastErr := none
    responseBuffer := none
    seqNo := i
    pushed := [] }

/-- The `exitRequest` send guard, repeated verbatim at src/ping.js lines
175-182, 248-255 and 262-269: if `options.exitRequest` is set and not yet
sent, mark it sent and write it (write failures are swallowed, so the
write has no further effect on the state). -/
def requestExitUpdate (cfg : ProbeCfg) (st : ProbeState) : ProbeState :=
  if cfg.exitRequest.isSome ∧ ¬ st.didRequestExit then
    { st with didRequestExit := true }
  else st

/-- The result object built by `probeResultCheck` (src/ping.js lines
189-198): base fields spread-overridden by the `result` patch.  The only
state mutated between the guard and the push (`didPushResults`,
`didRequestExit`) is not read here, so the fields are taken from the state
at entry. -/
def finalResult (cfg : ProbeCfg) (st : ProbeState) (patch : Option JsError)
    (now : ℚ) : AttemptResult :=
  { seq := st.seqNo
    conTime := st.connectTime
    time := match st.connectTime with | none => none | some _ => some now
    matchRes := if cfg.matchCfg.isSome then some st.didMatch else none
    err := match patch with | some e => some e | none => st.lastErr
    bytes := st.responseBuffer.map List.length
    data := if cfg.capture then st.responseBuffer else none }

/-- `probeResultCheck` (src/ping.js lines 168-201): the single finalize
routine.  `patch` is the explicit `result` argument (only ever `{}` or
`{ err: Error('Response timeout') }`), `now` the elapsed time computed by
`process.hrtime(start)` at the moment of the call. -/
def probeResultCheck (cfg : ProbeCfg) (st : ProbeState) (patch : Option JsError)
    (now : ℚ) : ProbeState :=
  if st.didPushResults then st
  else
    let st1 := requestExitUpdate cfg { st with didPushResults := true }
    { st1 with pushed := st1.pushed ++ [finalResult cfg st patch now] }

/-- The response-buffer update of the `'data'` handler (src/ping.js lines
227-239): the if/else-if chain capping the append at `maxResponseBytes`,
followed by the defensive truncation.  Returns the new buffer and the new
`didExceedResponseBytes` flag. -/
def bufAppend (maxB : Nat) (buf chunk : List Nat) (exceeded : Bool) :
    List Nat × Bool :=
  let p :=
    if buf.length + chunk.length ≤ maxB then (buf ++ chunk, exceeded)
    else if buf.length ≥ maxB ∧ 0 < chunk.length then (buf, true)
    else if 0 < chunk.length then
      (buf ++ chunk.take (maxB - buf.length), true)
    else (buf, exceeded)
  if maxB < p.1.length then (p.1.take maxB, true) else p

/-- The `'data'` handler `onData` (src/ping.js lines 221-273).  It is
registered only inside `onConnect`, so before connect (`responseBuffer =
none`) a data event has no handler and is a no-op. -/
def onData (cfg : ProbeCfg) (st : ProbeState) (chunk : List Nat) : ProbeState :=
  match st.responseBuffer with
  | none => st
  | some buf =>
    if st.didPushResults then st
    else
      let p := bufAppend cfg.maxResponseBytes buf chunk st.didExceedResponseBytes
      let st1 := { st with responseBuffer := some p.1, didExceedResponseBytes := p.2 }
      let st2 :=
        match cfg.matchCfg with
        | none => st1
        | some m =>
            if matcherTest m p.1 then requestExitUpdate cfg { st1 with didMatch := true }
            else st1
      if st2.didExceedResponseBytes then
        requestExitUpdate cfg
          { st2 with lastErr := some (st2.lastErr.getD JsError.maxResponseBytesExceeded) }
      else st2

/-- The asynchronous event sources of one probe-mode attempt, each carrying
the elapsed time at which it fires where the handler reads the clock.
`close` is the `'close'` event (guaranteed by the transport to fire once
the socket is destroyed), `idleTimeout` the `s.setTimeout` callback, and
`responseDeadline` the `setTimeout(.., options.timeout)` timer armed at
attempt start. -/
inductive Event where
  | connect (t : ℚ)
  | data (chunk : List Nat)
  | socketError (e : JsError)
  | finish
  | close (t : ℚ)
  | idleTimeout (t : ℚ)
  | responseDeadline (t : ℚ)

/-- Events whose handler calls the finalize routine `probeResultCheck`
directly: `onClose` (line 288), the idle-timeout callback (line 292) and
the response-deadline callback (line 208).  `socketError`, `finish` and a
matching or exceeding `data` chunk lead to finalize only through the
`close` they provoke. -/
def Event.isFinalizer : Event → Bool
  | .close _ => true
  | .idleTimeout _ => true
  | .responseDeadline _ => true
  | _ => false

def Event.isConnect : Event → Bool
  | .connect _ => true
  | _ => false

/-- One handler dispatch of the probe-mode attempt (src/ping.js lines
203-293). -/
def step (cfg : ProbeCfg) (st : ProbeState) : Event → ProbeState
  | .connect t => { st with connectTime := some t, responseBuffer := some [] }
  | .data chunk => onData cfg st chunk
  | .socketError e => { st with lastErr := some (st.lastErr.getD e) }
  | .finish => st
  | .close t => probeResultCheck cfg st none t
  | .idleTimeout t => probeResultCheck cfg st none t
  | .responseDeadline t =>
      if st.didPushResults then st
      else
        probeResultCheck cfg
          { st with lastErr := some (st.lastErr.getD JsError.responseTimeout) }
          (some JsError.responseTimeout) t

/-- A whole probe-mode attempt: the handlers folded over the sequence of
events delivered for this socket, in the order the event loop runs them. -/
def runProbeEvents (cfg : ProbeCfg) (i : Nat) (evs : List Event) : ProbeState :=
  evs.foldl (step cfg) (initProbeState i)

/-- The delay passed to `setTimeout` for the response-deadline timer armed
at attempt start (src/ping.js line 209): the source hands it
`options.timeout`; `options.responseTimeout` is never read. -/
def responseDeadlineDelay (cfg : ProbeCfg) : ℚ := cfg.timeout

/-- The three mutually exclusive outcomes of a plain-mode attempt
(src/ping.js lines 298-317): connect success, socket error, idle timeout.
The transport contract guarantees exactly one of them fires for a
never-connected socket. -/
inductive PlainTrigger where
  | connected (t : ℚ)
  | socketError (e : JsError)
  | idleTimeout
deriving Repr

/-- The result a plain-mode attempt pushes for each trigger. -/
def plainAttemptResult (i : Nat) : PlainTrigger → AttemptResult
  | .connected t => { seq := i, time := some t }
  | .socketError e => { seq := i, time := none, err := some e }
  | .idleTimeout => { seq := i, time := none, err := some JsError.requestTimeout }

/-- What the environment (transport plus timers) does during one attempt:
a single trigger in plain mode, a sequence of events in probe mode.  The
kind matches the invocation's mode; a mismatched kind cannot occur and is
mapped to a never-completing attempt. -/
inductive AttemptTrace where
  | plainT (tr : PlainTrigger)
  | probeT (evs : List Event)

/-- The single result one call of `connect` appends for attempt `i`, given
what the environment does: `none` when the attempt never finalizes (in
probe mode, a trace without a finalizing event). -/
def attemptResult (cfg : ProbeCfg) (isPb : Bool) (i : Nat) :
    AttemptTrace → Option AttemptResult
  | .plainT tr => if isPb then none else some (plainAttemptResult i tr)
  | .probeT evs => if isPb then (runProbeEvents cfg i evs).pushed.head? else none

/-- The attempt loop of `check`/`connect` (src/ping.js lines 82-84 and the
`i++; check(..)` tail of every push site): while `i < options.attempts`,
run one more attempt and append its result.  The loop guard
`i < options.attempts` is encoded structurally by the `remaining =
options.attempts - i` argument, which the wrapper `checkLoop` computes. -/
def checkLoopAux (cfg : ProbeCfg) (isPb : Bool) (oracle : Nat → AttemptTrace) :
    Nat → Nat → List AttemptResult → Option (List AttemptResult)
  | 0, _, acc => some acc
  | n + 1, i, acc =>
      match attemptResult cfg isPb i (oracle i) with
      | none => none
      | some r => checkLoopAux cfg isPb oracle n (i + 1) (acc ++ [r])

/-- `check` with counter `i` and the results collected so far. -/
def checkLoop (cfg : ProbeCfg) (isPb : Bool) (oracle : Nat → AttemptTrace)
    (i : Nat) (acc : List AttemptResult) : Option (List AttemptResult) :=
  checkLoopAux cfg isPb oracle (cfg.attempts - i) i acc

/-- The body of `probe` after the defaults merge: `connect` is invoked once
unconditionally (src/ping.js line 319) — even when `attempts` is `0` — and
every finalize hands control back to `check`.  Returns the completed
`results` array, or `none` if some attempt never finalizes. -/
def probeRun (cfg : ProbeCfg) (isPb : Bool) (oracle : Nat → AttemptTrace) :
    Option (List AttemptResult) :=
  match attemptResult cfg isPb 0 (oracle 0) with
  | none => none
  | some r => checkLoop cfg isPb oracle 1 [r]

/-! ### Result aggregation (the else branch of `check`, src/ping.js lines 85-149) -/

/-- JavaScript `prev > curr`: `false` whenever either side is `undefined`. -/
def jsGT (a b : Option ℚ) : Bool :=
  match a, b with
  | some x, some y => decide (y < x)
  | _, _ => false

/-- JavaScript `prev < curr`: `false` whenever either side is `undefined`. -/
def jsLT (a b : Option ℚ) : Bool :=
  match a, b with
  | some x, some y => decide (x < y)
  | _, _ => false

/-- JavaScript `+` on values that may be `undefined`: `undefined + x` is
`NaN`, modelled as `none`. -/
def jsAdd (a b : Option ℚ) : Option ℚ :=
  match a, b with
  | some x, some y => some (x + y)
  | _, _ => none

/-- The `dropped` reducer (lines 86-88). -/
def droppedOf (results : List AttemptResult) : Nat :=
  results.foldl (fun prev curr => if curr.time = none then prev + 1 else prev) 0

/-- The `avg` sum reducer (lines 90-92), before the division by
`results.length - dropped`. -/
def avgSumOf (results : List AttemptResult) : ℚ :=
  results.foldl
    (fun prev curr => match curr.time with | none => prev | some t => prev + t) 0

/-- The `max`/`conMax` reducer shape (lines 93-95, 105-107):
`results.reduce((prev, curr) => prev > f(curr) ? prev : f(curr), seed)`. -/
def foldMaxBy (f : AttemptResult → Option ℚ) (seed : Option ℚ)
    (results : List AttemptResult) : Option ℚ :=
  results.foldl (fun prev curr => if jsGT prev (f curr) then prev else f curr) seed

/-- The `min`/`conMin` reducer shape (lines 96-98, 108-110). -/
def foldMinBy (f : AttemptResult → Option ℚ) (seed : Option ℚ)
    (results : List AttemptResult) : Option ℚ :=
  results.foldl (fun prev curr => if jsLT prev (f curr) then prev else f curr) seed

/-- The `conAvg` sum reducer (lines 102-104): guarded on `curr.time` but
adding `curr.conTime`. -/
def conAvgSumOf (results : List AttemptResult) : Option ℚ :=
  results.foldl
    (fun prev curr => match curr.time with | none => prev | some _ => jsAdd prev curr.conTime)
    (some 0)

/-- The report object handed to the callback (lines 119-133 for probe mode,
138-147 for plain mode).  `matchCount` embeds the `matches` key, which is
reserved syntax in Lean.  `matches`, `errors` and the `con*` aggregates are
absent (`none`) in plain mode; a `NaN`/`Infinity` arising from the division
by `results.length - dropped` when every attempt dropped is modelled as
`none`. -/
structure Report where
  address : String
  port : Nat
  attempts : Nat
  dropped : Nat
  matchCount : Option Nat := none
  errors : Option Nat := none
  avg : Option ℚ
  max : Option ℚ
  min : Option ℚ
  conAvg : Option ℚ := none
  conMax : Option ℚ := none
  conMin : Option ℚ := none
  results : List AttemptResult
deriving Repr

/-- The aggregation branch of `check`.  The seeds of the `max`/`min`
reducers are `results[0].time` and `results[0].conTime`: on an empty
`results` array, `results[0]` is `undefined` and the field access throws an
uncaught `TypeError` — modelled as `none`. -/
def aggregate (cfg : ProbeCfg) (isPb : Bool) (results : List AttemptResult) :
    Option Report :=
  match results.head? with
  | none => none
  | some r0 =>
    let dropped := droppedOf results
    let maxV := foldMaxBy (fun r => r.time) r0.time results
    let minV := foldMinBy (fun r => r.time) r0.time results
    let denom : Nat := results.length - dropped
    let avg : Option ℚ :=
      if denom = 0 then none else some (avgSumOf results / (denom : ℚ))
    if isPb then
      let conAvg : Option ℚ :=
        match conAvgSumOf results with
        | none => none
        | some s => if denom = 0 then none else some (s / (denom : ℚ))
      some { address := cfg.address, port := cfg.port, attempts := cfg.attempts
             dropped := dropped
             matchCount := some ((results.filter (fun r => r.matchRes = some true)).length)
             errors := some ((results.filter (fun r => r.err.isSome)).length)
             avg := avg, max := maxV, min := minV
             conAvg := conAvg
             conMax := foldMaxBy (fun r => r.conTime) r0.conTime results
             conMin := foldMinBy (fun r => r.conTime) r0.conTime results
             results := results }
    else
      some { address := cfg.address, port := cfg.port, attempts := cfg.attempts
             dropped := dropped, avg := avg, max := maxV, min := minV
             results := results }

/-- How a whole invocation of `probe` ends: some attempt hanging forever,
an uncaught exception while aggregating, or the report delivered to the
callback. -/
inductive Outcome where
  | hangs
  | crash
  | report (rep : Report)

def Outcome.isReport : Outcome → Bool
  | .report _ => true
  | _ => false

/-- A full invocation: run the sequencer, then aggregate. -/
def probeInvoke (cfg : ProbeCfg) (isPb : Bool) (oracle : Nat → AttemptTrace) :
    Outcome :=
  match probeRun cfg isPb oracle with
  | none => .hangs
  | some rs =>
    match aggregate cfg isPb rs with
    | none => .crash
    | some rep => .report rep

/-! ### Mode derivation (src/ping.js line 50) -/

/-- A caller-supplied `request`/`exitRequest` value: a string or a Buffer.
JavaScript truthiness: the empty string is falsy; any Buffer object —
even an empty one — is truthy. -/
inductive BytesLike where
  | jsStr (s : String)
  | buf (b : List Nat)
deriving DecidableEq

def BytesLike.truthy : BytesLike → Bool
  | .jsStr s => !s.isEmpty
  | .buf _ => true

/-- A caller-supplied `match` value: string, Buffer, RegExp or function.
Objects (Buffer, RegExp, function) are always truthy. -/
inductive MatchLike where
  | jsStr (s : String)
  | buf (b : List Nat)
  | regexObj
  | fnObj
deriving DecidableEq

def MatchLike.truthy : MatchLike → Bool
  | .jsStr s => !s.isEmpty
  | _ => true

/-- The caller's raw options object, before the defaults merge, restricted
to the fields `isProbe` inspects.  `none` means the key was not supplied. -/
structure CallerOptions where
  request : Option BytesLike := none
  exitRequest : Option BytesLike := none
  capture : Option Bool := none
  matchOpt : Option MatchLike := none
  maxResponseBytes : Option Int := none
deriving DecidableEq

/-- src/ping.js line 50:
`!!(options.request || options.exitRequest || options.capture ||
options.match || options.maxResponseBytes)`, evaluated on the raw caller
options with JavaScript truthiness (`0` is falsy for the number option). -/
def isProbe (o : CallerOptions) : Bool :=
  o.request.any BytesLike.truthy || o.exitRequest.any BytesLike.truthy ||
    o.capture.any (fun b => b) || o.matchOpt.any MatchLike.truthy ||
    o.maxResponseBytes.any (fun n => n != 0)

/-- The spec's wording of mode derivation ("probe mode is active iff any of
{request, exitRequest, capture, match} is set or maxResponseBytes was
explicitly provided"): presence of the keys, ignoring truthiness. -/
def specIsProbe (o : CallerOptions) : Bool :=
  o.request.isSome || o.exitRequest.isSome || o.capture.isSome ||
    o.matchOpt.isSome || o.maxResponseBytes.isSome

/-- Discard the caller options whose supplied value is falsy. -/
def truthyOnly (o : CallerOptions) : CallerOptions :=
  { request := o.request.filter BytesLike.truthy
    exitRequest := o.exitRequest.filter BytesLike.truthy
    capture := o.capture.filter (fun b => b)
    matchOpt := o.matchOpt.filter MatchLike.truthy
    maxResponseBytes := o.maxResponseBytes.filter (fun n => n != 0) }

/-! ### Basic facts about the handlers -/

@[simp] theorem requestExitUpdate_didPushResults (cfg : ProbeCfg) (st : ProbeState) :
    (requestExitUpdate cfg st).didPushResults = st.didPushResults := by
  unfold requestExitUpdate; split <;> rfl

@[simp] theorem requestExitUpdate_pushed (cfg : ProbeCfg) (st : ProbeState) :
    (requestExitUpdate cfg st).pushed = st.pushed := by
  unfold requestExitUpdate; split <;> rfl

@[simp] theorem requestExitUpdate_connectTime (cfg : ProbeCfg) (st : ProbeState) :
    (requestExitUpdate cfg st).connectTime = st.connectTime := by
  unfold requestExitUpdate; split <;> rfl

@[simp] theorem requestExitUpdate_seqNo (cfg : ProbeCfg) (st : ProbeState) :
    (requestExitUpdate cfg st).seqNo = st.seqNo := by
  unfold requestExitUpdate; split <;> rfl

@[simp] theorem requestExitUpdate_responseBuffer (cfg : ProbeCfg) (st : ProbeState) :
    (requestExitUpdate cfg st).responseBuffer = st.responseBuffer := by
  unfold requestExitUpdate; split <;> rfl

@[simp] theorem requestExitUpdate_lastErr (cfg : ProbeCfg) (st : ProbeState) :
    (requestExitUpdate cfg st).lastErr = st.lastErr := by
  unfold requestExitUpdate; split <;> rfl

@[simp] theorem requestExitUpdate_didExceed (cfg : ProbeCfg) (st : ProbeState) :
    (requestExitUpdate cfg st).didExceedResponseBytes = st.didExceedResponseBytes := by
  unfold requestExitUpdate; split <;> rfl

@[simp] theorem requestExitUpdate_didMatch (cfg : ProbeCfg) (st : ProbeState) :
    (requestExitUpdate cfg st).didMatch = st.didMatch := by
  unfold requestExitUpdate; split <;> rfl

theorem probeResultCheck_of_pushed (cfg : ProbeCfg) (st : ProbeState)
    (patch : Option JsError) (now : ℚ) (h : st.didPushResults = true) :
    probeResultCheck cfg st patch now = st := by
  unfold probeResultCheck; simp [h]

theorem probeResultCheck_pushed (cfg : ProbeCfg) (st : ProbeState)
    (patch : Option JsError) (now : ℚ) :
    (probeResultCheck cfg st patch now).pushed =
      if st.didPushResults then st.pushed
      else st.pushed ++ [finalResult cfg st patch now] := by
  unfold probeResultCheck; split <;> simp

theorem probeResultCheck_didPushResults (cfg : ProbeCfg) (st : ProbeState)
    (patch : Option JsError) (now : ℚ) :
    (probeResultCheck cfg st patch now).didPushResults = true ∨
      (probeResultCheck cfg st patch now) = st := by
  unfold probeResultCheck; split
  · right; rfl
  · left; simp

theorem onData_didPushResults (cfg : ProbeCfg) (st : ProbeState) (chunk : List Nat) :
    (onData cfg st chunk).didPushResults = st.didPushResults := by
  unfold onData
  split
  · rfl
  · split
    · rfl
    · simp only []
      cases hm : cfg.matchCfg <;>
        simp_all [apply_ite ProbeState.didPushResults]

theorem onData_pushed (cfg : ProbeCfg) (st : ProbeState) (chunk : List Nat) :
    (onData cfg st chunk).pushed = st.pushed := by
  unfold onData
  split
  · rfl
  · split
    · rfl
    · simp only []
      cases hm : cfg.matchCfg <;>
        simp_all [apply_ite ProbeState.pushed]

theorem onData_seqNo (cfg : ProbeCfg) (st : ProbeState) (chunk : List Nat) :
    (onData cfg st chunk).seqNo = st.seqNo := by
  unfold onData
  split
  · rfl
  · split
    · rfl
    · simp only []
      cases hm : cfg.matchCfg <;>
        simp_all [apply_ite ProbeState.seqNo]

/-! ### C1: the finalize-exactly-once guard -/

theorem step_didPushResults (cfg : ProbeCfg) (st : ProbeState) (ev : Event) :
    (step cfg st ev).didPushResults = (st.didPushResults || ev.isFinalizer) := by
  cases ev with
  | connect t => simp [step, Event.isFinalizer]
  | data chunk => simp [step, Event.isFinalizer, onData_didPushResults]
  | socketError e => simp [step, Event.isFinalizer]
  | finish => simp [step, Event.isFinalizer]
  | close t =>
      simp only [step, Event.isFinalizer, probeResultCheck, Bool.or_true]
      split <;> simp_all
  | idleTimeout t =>
      simp only [step, Event.isFinalizer, probeResultCheck, Bool.or_true]
      split <;> simp_all
  | responseDeadline t =>
      simp only [step, Event.isFinalizer, probeResultCheck, Bool.or_true]
      split <;> simp_all

theorem step_pushed_length (cfg : ProbeCfg) (st : ProbeState) (ev : Event) :
    (step cfg st ev).pushed.length =
      st.pushed.length +
        (if st.didPushResults = false ∧ ev.isFinalizer = true then 1 else 0) := by
  cases ev with
  | connect t => simp [step, Event.isFinalizer]
  | data chunk => simp [step, Event.isFinalizer, onData_pushed]
  | socketError e => simp [step, Event.isFinalizer]
  | finish => simp [step, Event.isFinalizer]
  | close t =>
      simp only [step, Event.isFinalizer, probeResultCheck]
      split <;> simp_all
  | idleTimeout t =>
      simp only [step, Event.isFinalizer, probeResultCheck]
      split <;> simp_all
  | responseDeadline t =>
      simp only [step, Event.isFinalizer, probeResultCheck]
      split <;> simp_all

theorem step_pushed_of_pushed (cfg : ProbeCfg) (st : ProbeState) (ev : Event)
    (h : st.didPushResults = true) : (step cfg st ev).pushed = st.pushed := by
  cases ev with
  | connect t => rfl
  | data chunk => exact onData_pushed cfg st chunk
  | socketError e => rfl
  | finish => rfl
  | close t => simp [step, probeResultCheck, h]
  | idleTimeout t => simp [step, probeResultCheck, h]
  | responseDeadline t => simp [step, h]

theorem foldSteps_push (cfg : ProbeCfg) (evs : List Event) :
    ∀ st : ProbeState,
      (evs.foldl (step cfg) st).didPushResults =
          (st.didPushResults || evs.any Event.isFinalizer)
        ∧ (evs.foldl (step cfg) st).pushed.length =
            st.pushed.length +
              (if st.didPushResults = false ∧ evs.any Event.isFinalizer = true
               then 1 else 0) := by
  induction evs with
  | nil => intro st; simp
  | cons e evs ih =>
      intro st
      rcases ih (step cfg st e) with ⟨ihd, ihl⟩
      constructor
      · rw [List.foldl_cons, ihd, step_didPushResults]
        cases h : st.didPushResults <;> simp [List.any_cons, h]
      · rw [List.foldl_cons, ihl, step_didPushResults, step_pushed_length]
        cases h : st.didPushResults <;>
          cases hf : e.isFinalizer <;>
            cases ha : evs.any Event.isFinalizer <;>
              simp [List.any_cons, h, hf, ha]

/-- C1: for every probe-mode attempt and every order of the finalize
trigger events, exactly one AttemptResult is pushed — the run pushes one
result exactly when some trigger reaches `probeResultCheck`, and once the
guard flag is set any further event leaves the pushed results unchanged. -/
theorem finalize_exactly_once (cfg : ProbeCfg) (i : Nat) (evs : List Event) :
    ((runProbeEvents cfg i evs).pushed.length =
        if evs.any Event.isFinalizer then 1 else 0)
      ∧ ∀ (st : ProbeState) (ev : Event),
          (step cfg { st with didPushResults := true } ev).pushed = st.pushed := by
  constructor
  · have h := (foldSteps_push cfg evs (initProbeState i)).2
    rw [runProbeEvents, h]
    simp [initProbeState]
  · intro st ev
    exact step_pushed_of_pushed cfg { st with didPushResults := true } ev rfl

/-! ### C4: attempts whose connect never completes -/

/-- Field conditions claimed for a pre-connect failure result. -/
def PreConnectRes (cfg : ProbeCfg) (r : AttemptResult) : Prop :=
  r.conTime = none ∧ r.time = none ∧
    (cfg.matchCfg.isSome = true → r.matchRes = some false)

theorem step_preconnect (cfg : ProbeCfg) (st : ProbeState) (ev : Event)
    (hev : ev.isConnect = false)
    (h1 : st.connectTime = none) (h2 : st.didMatch = false)
    (h3 : st.responseBuffer = none)
    (h4 : ∀ r ∈ st.pushed, PreConnectRes cfg r) :
    (step cfg st ev).connectTime = none ∧ (step cfg st ev).didMatch = false ∧
      (step cfg st ev).responseBuffer = none ∧
      ∀ r ∈ (step cfg st ev).pushed, PreConnectRes cfg r := by
  cases ev with
  | connect t => simp [Event.isConnect] at hev
  | data chunk =>
      have hd : step cfg st (Event.data chunk) = st := by
        show onData cfg st chunk = st
        unfold onData; rw [h3]
      rw [hd]; exact ⟨h1, h2, h3, h4⟩
  | socketError e => exact ⟨h1, h2, h3, h4⟩
  | finish => exact ⟨h1, h2, h3, h4⟩
  | close t =>
      simp only [step, probeResultCheck]
      split
      · exact ⟨h1, h2, h3, h4⟩
      · refine ⟨by simp [h1], by simp [h2], by simp [h3], ?_⟩
        intro r hr
        simp only [requestExitUpdate_pushed] at hr
        rcases List.mem_append.mp hr with hmem | hmem
        · exact h4 r hmem
        · rcases List.mem_singleton.mp hmem with rfl
          refine ⟨by simp [finalResult, h1], by simp [finalResult, h1], ?_⟩
          intro hm
          simp [finalResult, hm, h2]
  | idleTimeout t =>
      simp only [step, probeResultCheck]
      split
      · exact ⟨h1, h2, h3, h4⟩
      · refine ⟨by simp [h1], by simp [h2], by simp [h3], ?_⟩
        intro r hr
        simp only [requestExitUpdate_pushed] at hr
        rcases List.mem_append.mp hr with hmem | hmem
        · exact h4 r hmem
        · rcases List.mem_singleton.mp hmem with rfl
          refine ⟨by simp [finalResult, h1], by simp [finalResult, h1], ?_⟩
          intro hm
          simp [finalResult, hm, h2]
  | responseDeadline t =>
      simp only [step]
      split
      · exact ⟨h1, h2, h3, h4⟩
      · simp only [probeResultCheck]
        split
        · exact ⟨h1, h2, h3, h4⟩
        · refine ⟨by simp [h1], by simp [h2], by simp [h3], ?_⟩
          intro r hr
          simp only [requestExitUpdate_pushed] at hr
          rcases List.mem_append.mp hr with hmem | hmem
          · exact h4 r hmem
          · rcases List.mem_singleton.mp hmem with rfl
            refine ⟨by simp [finalResult, h1], by simp [finalResult, h1], ?_⟩
            intro hm
            simp [finalResult, hm, h2]

theorem foldSteps_preconnect (cfg : ProbeCfg) (evs : List Event)
    (hnc : ∀ e ∈ evs, e.isConnect = false) :
    ∀ st : ProbeState, st.connectTime = none → st.didMatch = false →
      st.responseBuffer = none → (∀ r ∈ st.pushed, PreConnectRes cfg r) →
      ∀ r ∈ (evs.foldl (step cfg) st).pushed, PreConnectRes cfg r := by
  induction evs with
  | nil => intro st _ _ _ h4; simpa using h4
  | cons e evs ih =>
      intro st h1 h2 h3 h4
      have he : e.isConnect = false := hnc e (List.mem_cons_self e evs)
      have hs := step_preconnect cfg st e he h1 h2 h3 h4
      rw [List.foldl_cons]
      exact ih (fun x hx => hnc x (List.mem_cons_of_mem e hx))
        (step cfg st e) hs.1 hs.2.1 hs.2.2.1 hs.2.2.2

/-- C4 (amended): for every probe-mode attempt whose connect never
completes, every recorded AttemptResult has `conTime` and `time` absent
and — whenever `match` was configured — the `match` field present with
value `false` (the source spreads `{ match: didMatch }` unconditionally
when `options.match` is truthy). -/
theorem preconnect_result_fields (cfg : ProbeCfg) (i : Nat) (evs : List Event)
    (hnc : ∀ e ∈ evs, e.isConnect = false) :
    ∀ r ∈ (runProbeEvents cfg i evs).pushed,
      r.conTime = none ∧ r.time = none ∧
        (cfg.matchCfg.isSome = true → r.matchRes = some false) := by
  intro r hr
  exact foldSteps_preconnect cfg evs hnc (initProbeState i) rfl rfl rfl
    (by intro x hx; simp [initProbeState] at hx) r hr

/-- C4 witness: a concrete pre-connect idle-timeout finalize with `match`
configured. -/
theorem preconnect_result_fields_witness :
    ({ seq := 0, conTime := none, time := none, matchRes := some false } :
        AttemptResult).conTime = none ∧
      ({ seq := 0, conTime := none, time := none, matchRes := some false } :
        AttemptResult).time = none ∧
      (({ matchCfg := some (Matcher.bufPat [80]) } : ProbeCfg).matchCfg.isSome = true →
        ({ seq := 0, conTime := none, time := none, matchRes := some false } :
          AttemptResult).matchRes = some false) :=
  preconnect_result_fields { matchCfg := some (Matcher.bufPat [80]) } 0
    [Event.idleTimeout 5]
    (by intro e he; rcases List.mem_singleton.mp he with rfl; rfl)
    { seq := 0, conTime := none, time := none, matchRes := some false }
    (by decide)

/-- C4 counterexample: a probe-mode attempt with `match` configured whose
connect never completes (the idle timeout fires first) records a result
whose `match` field is PRESENT (with value `false`) and whose `err` is
absent, contradicting the claim that `match` is absent and an error is
present. -/
theorem preconnect_match_present_cex :
    ((runProbeEvents ({ matchCfg := some (Matcher.bufPat [80]) } : ProbeCfg) 0
          [Event.idleTimeout 5]).pushed.map
        (fun r => (r.conTime, r.time, r.matchRes, r.err)))
      = [(none, none, some false, none)] := by
  decide

/-! ### C5: the response buffer never exceeds the cap -/

theorem bufAppend_length_le (maxB : Nat) (buf chunk : List Nat) (e : Bool) :
    (bufAppend maxB buf chunk e).1.length ≤ maxB := by
  unfold bufAppend
  by_cases h1 : buf.length + chunk.length ≤ maxB
  · simp only [if_pos h1]
    split <;> simp [List.length_take] <;> omega
  · simp only [if_neg h1]
    by_cases h2 : buf.length ≥ maxB ∧ 0 < chunk.length
    · simp only [if_pos h2]
      split <;> simp [List.length_take] <;> omega
    · simp only [if_neg h2]
      by_cases h3 : 0 < chunk.length
      · simp only [if_pos h3]
        split <;> simp [List.length_take] <;> omega
      · simp only [if_neg h3]
        split <;> simp [List.length_take] <;> omega

theorem onData_responseBuffer (cfg : ProbeCfg) (st : ProbeState) (chunk : List Nat) :
    (onData cfg st chunk).responseBuffer = st.responseBuffer ∨
      ∃ buf, st.responseBuffer = some buf ∧
        (onData cfg st chunk).responseBuffer =
          some (bufAppend cfg.maxResponseBytes buf chunk st.didExceedResponseBytes).1 := by
  unfold onData
  cases hb : st.responseBuffer with
  | none => left; exact hb
  | some buf =>
      simp only []
      split
      · left; exact hb
      · right
        exact ⟨buf, rfl, by
          cases hm : cfg.matchCfg <;>
            simp_all [apply_ite ProbeState.responseBuffer]⟩

theorem step_bytes_le (cfg : ProbeCfg) (st : ProbeState) (ev : Event)
    (hbuf : ∀ b, st.responseBuffer = some b → b.length ≤ cfg.maxResponseBytes)
    (hpush : ∀ r ∈ st.pushed, ∀ n, r.bytes = some n → n ≤ cfg.maxResponseBytes) :
    (∀ b, (step cfg st ev).responseBuffer = some b → b.length ≤ cfg.maxResponseBytes)
      ∧ ∀ r ∈ (step cfg st ev).pushed, ∀ n, r.bytes = some n →
          n ≤ cfg.maxResponseBytes := by
  have hfin : ∀ (patch : Option JsError) (now : ℚ) (r : AttemptResult),
      r = finalResult cfg st patch now → ∀ n, r.bytes = some n →
        n ≤ cfg.maxResponseBytes := by
    intro patch now r hr n hn
    subst hr
    rcases hsb : st.responseBuffer with _ | b0
    · simp [finalResult, hsb] at hn
    · simp only [finalResult, hsb, Option.map_some', Option.some.injEq] at hn
      subst hn
      exact hbuf b0 hsb
  have hprc : ∀ (patch : Option JsError) (now : ℚ),
      (∀ b, (probeResultCheck cfg st patch now).responseBuffer = some b →
          b.length ≤ cfg.maxResponseBytes)
        ∧ ∀ r ∈ (probeResultCheck cfg st patch now).pushed, ∀ n,
            r.bytes = some n → n ≤ cfg.maxResponseBytes := by
    intro patch now
    unfold probeResultCheck
    split
    · exact ⟨hbuf, hpush⟩
    · constructor
      · intro b hb
        simp only [requestExitUpdate_responseBuffer] at hb
        exact hbuf b hb
      · intro r hr n hn
        simp only [requestExitUpdate_pushed] at hr
        rcases List.mem_append.mp hr with hmem | hmem
        · exact hpush r hmem n hn
        · rcases List.mem_singleton.mp hmem with rfl
          exact hfin patch now _ rfl n hn
  cases ev with
  | connect t =>
      refine ⟨?_, hpush⟩
      intro b hb
      simp only [step, Option.some.injEq] at hb
      subst hb
      simp
  | data chunk =>
      constructor
      · intro b hb
        rcases onData_responseBuffer cfg st chunk with h | ⟨buf, hbuf0, hsome⟩
        · exact hbuf b (h ▸ hb)
        · have : (step cfg st (Event.data chunk)).responseBuffer =
              some (bufAppend cfg.maxResponseBytes buf chunk st.didExceedResponseBytes).1 :=
            hsome
          rw [this] at hb
          simp only [Option.some.injEq] at hb
          subst hb
          exact bufAppend_length_le cfg.maxResponseBytes buf chunk st.didExceedResponseBytes
      · intro r hr
        have : (step cfg st (Event.data chunk)).pushed = st.pushed := onData_pushed cfg st chunk
        rw [this] at hr
        exact hpush r hr
  | socketError e => exact ⟨hbuf, hpush⟩
  | finish => exact ⟨hbuf, hpush⟩
  | close t => exact hprc none t
  | idleTimeout t => exact hprc none t
  | responseDeadline t =>
      simp only [step]
      split
      · exact ⟨hbuf, hpush⟩
      · unfold probeResultCheck
        split
        · exact ⟨hbuf, hpush⟩
        · constructor
          · intro b hb
            simp only [requestExitUpdate_responseBuffer] at hb
            exact hbuf b hb
          · intro r hr n hn
            simp only [requestExitUpdate_pushed] at hr
            rcases List.mem_append.mp hr with hmem | hmem
            · exact hpush r hmem n hn
            · rcases List.mem_singleton.mp hmem with rfl
              rcases hsb : st.responseBuffer with _ | b0
              · simp [finalResult, hsb] at hn
              · simp only [finalResult, hsb, Option.map_some', Option.some.injEq] at hn
                subst hn
                exact hbuf b0 hsb

theorem foldSteps_bytes_le (cfg : ProbeCfg) (evs : List Event) :
    ∀ st : ProbeState,
      (∀ b, st.responseBuffer = some b → b.length ≤ cfg.maxResponseBytes) →
      (∀ r ∈ st.pushed, ∀ n, r.bytes = some n → n ≤ cfg.maxResponseBytes) →
      ∀ r ∈ (evs.foldl (step cfg) st).pushed, ∀ n, r.bytes = some n →
        n ≤ cfg.maxResponseBytes := by
  induction evs with
  | nil => intro st _ hp; simpa using hp
  | cons e evs ih =>
      intro st hb hp
      have hs := step_bytes_le cfg st e hb hp
      rw [List.foldl_cons]
      exact ih (step cfg st e) hs.1 hs.2

/-- C5: for every probe-mode attempt and every sequence of inbound chunks,
the `bytes` field of any recorded AttemptResult (the response-buffer length
at finalize) never exceeds `maxResponseBytes`. -/
theorem bytes_never_exceed_cap (cfg : ProbeCfg) (i : Nat) (evs : List Event)
    (r : AttemptResult) (hr : r ∈ (runProbeEvents cfg i evs).pushed)
    (n : Nat) (hn : r.bytes = some n) : n ≤ cfg.maxResponseBytes := by
  refine foldSteps_bytes_le cfg evs (initProbeState i) ?_ ?_ r hr n hn
  · intro b hb; simp [initProbeState] at hb
  · intro x hx; simp [initProbeState] at hx

/-- C5 witness: a concrete probe-mode attempt (cap 3, one 4-byte chunk)
whose recorded result has `bytes = 3 ≤ 3`. -/
theorem bytes_never_exceed_cap_witness :
    (3 : Nat) ≤ ({ maxResponseBytes := 3 } : ProbeCfg).maxResponseBytes :=
  bytes_never_exceed_cap ({ maxResponseBytes := 3 } : ProbeCfg) 0
    [Event.connect 1, Event.data [9, 9, 9, 9], Event.close 2]
    { seq := 0, conTime := some 1, time := some 2,
      err := some JsError.maxResponseBytesExceeded, bytes := some 3 }
    (by decide) 3 (by decide)

/-! ### C2: one result per attempt, in attempt order -/

theorem step_seqNo (cfg : ProbeCfg) (st : ProbeState) (ev : Event) :
    (step cfg st ev).seqNo = st.seqNo := by
  cases ev with
  | connect t => rfl
  | data chunk => exact onData_seqNo cfg st chunk
  | socketError e => rfl
  | finish => rfl
  | close t => simp only [step, probeResultCheck]; split <;> simp
  | idleTimeout t => simp only [step, probeResultCheck]; split <;> simp
  | responseDeadline t =>
      simp only [step, probeResultCheck]
      split <;> simp

theorem step_pushed_mem (cfg : ProbeCfg) (st : ProbeState) (ev : Event)
    (r : AttemptResult) (hr : r ∈ (step cfg st ev).pushed) :
    r ∈ st.pushed ∨ r.seq = st.seqNo := by
  cases ev with
  | connect t => exact Or.inl hr
  | data chunk =>
      have hp : (step cfg st (Event.data chunk)).pushed = st.pushed :=
        onData_pushed cfg st chunk
      rw [hp] at hr; exact Or.inl hr
  | socketError e => exact Or.inl hr
  | finish => exact Or.inl hr
  | close t =>
      simp only [step, probeResultCheck] at hr
      split at hr
      · exact Or.inl hr
      · simp only [requestExitUpdate_pushed] at hr
        rcases List.mem_append.mp hr with hmem | hmem
        · exact Or.inl hmem
        · rcases List.mem_singleton.mp hmem with rfl
          exact Or.inr rfl
  | idleTimeout t =>
      simp only [step, probeResultCheck] at hr
      split at hr
      · exact Or.inl hr
      · simp only [requestExitUpdate_pushed] at hr
        rcases List.mem_append.mp hr with hmem | hmem
        · exact Or.inl hmem
        · rcases List.mem_singleton.mp hmem with rfl
          exact Or.inr rfl
  | responseDeadline t =>
      simp only [step, probeResultCheck] at hr
      split at hr
      · exact Or.inl hr
      · simp only [requestExitUpdate_pushed] at hr
        rcases List.mem_append.mp hr with hmem | hmem
        · exact Or.inl hmem
        · rcases List.mem_singleton.mp hmem with rfl
          exact Or.inr rfl

theorem foldSteps_seq (cfg : ProbeCfg) (evs : List Event) :
    ∀ st : ProbeState, (∀ r ∈ st.pushed, r.seq = st.seqNo) →
      ∀ r ∈ (evs.foldl (step cfg) st).pushed, r.seq = st.seqNo := by
  induction evs with
  | nil => intro st h; simpa using h
  | cons e evs ih =>
      intro st h r hr
      rw [List.foldl_cons] at hr
      have hstep : ∀ x ∈ (step cfg st e).pushed, x.seq = (step cfg st e).seqNo := by
        intro x hx
        rw [step_seqNo]
        rcases step_pushed_mem cfg st e x hx with hmem | hs
        · exact h x hmem
        · exact hs
      have := ih (step cfg st e) hstep r hr
      rwa [step_seqNo] at this

theorem runProbeEvents_seq (cfg : ProbeCfg) (i : Nat) (evs : List Event) :
    ∀ r ∈ (runProbeEvents cfg i evs).pushed, r.seq = i := by
  intro r hr
  exact foldSteps_seq cfg evs (initProbeState i)
    (by intro x hx; simp [initProbeState] at hx) r hr

theorem attemptResult_seq (cfg : ProbeCfg) (isPb : Bool) (i : Nat)
    (tr : AttemptTrace) (r : AttemptResult)
    (h : attemptResult cfg isPb i tr = some r) : r.seq = i := by
  cases tr with
  | plainT p =>
      simp only [attemptResult] at h
      split at h
      · exact absurd h (by simp)
      · rcases Option.some.injEq .. |>.mp h with rfl
        cases p <;> rfl
  | probeT evs =>
      simp only [attemptResult] at h
      split at h
      · have hr : r ∈ (runProbeEvents cfg i evs).pushed := by
          cases hl : (runProbeEvents cfg i evs).pushed with
          | nil => rw [hl] at h; simp at h
          | cons a t =>
              rw [hl] at h
              simp only [List.head?_cons, Option.some.injEq] at h
              rw [← h]
              exact List.mem_cons_self a t
        exact runProbeEvents_seq cfg i evs r hr
      · exact absurd h (by simp)

theorem checkLoopAux_spec (cfg : ProbeCfg) (isPb : Bool)
    (oracle : Nat → AttemptTrace) :
    ∀ (n i : Nat) (acc : List AttemptResult),
      (∀ k, i ≤ k → k < i + n → (attemptResult cfg isPb k (oracle k)).isSome = true) →
      acc.length = i →
      (∀ j (hj : j < acc.length), acc[j].seq = j) →
      ∃ rs, checkLoopAux cfg isPb oracle n i acc = some rs ∧ rs.length = i + n ∧
        ∀ j (hj : j < rs.length), rs[j].seq = j := by
  intro n
  induction n with
  | zero =>
      intro i acc _ hlen hseq
      exact ⟨acc, rfl, by omega, hseq⟩
  | succ n ih =>
      intro i acc hfin hlen hseq
      have h0 : (attemptResult cfg isPb i (oracle i)).isSome = true :=
        hfin i le_rfl (by omega)
      rcases Option.isSome_iff_exists.mp h0 with ⟨r, hr⟩
      have hrseq : r.seq = i := attemptResult_seq cfg isPb i (oracle i) r hr
      have hseq2 : ∀ j (hj : j < (acc ++ [r]).length), (acc ++ [r])[j].seq = j := by
        intro j hj
        by_cases hlt : j < acc.length
        · rw [List.getElem_append_left hlt]
          exact hseq j hlt
        · have hj2 : j = acc.length := by
            simp only [List.length_append, List.length_singleton] at hj
            omega
          subst hj2
          rw [List.getElem_concat_length _ _ _ rfl]
          rw [hrseq, hlen]
      have hrec := ih (i + 1) (acc ++ [r])
        (fun k hk1 hk2 => hfin k (by omega) (by omega))
        (by simp [hlen]) hseq2
      rcases hrec with ⟨rs, h1, h2, h3⟩
      refine ⟨rs, ?_, by omega, h3⟩
      simp only [checkLoopAux, hr]
      exact h1

/-- C2: for every valid configuration with `attempts = n ≥ 1` (and every
attempt eventually finalizing, as the transport guarantees), the completed
results sequence has length `n` and `results[k].seq = k` for every `k`. -/
theorem results_length_and_seq (cfg : ProbeCfg) (isPb : Bool)
    (oracle : Nat → AttemptTrace) (h1 : 1 ≤ cfg.attempts)
    (hfin : ∀ k, k < cfg.attempts →
      (attemptResult cfg isPb k (oracle k)).isSome = true) :
    ((probeRun cfg isPb oracle).map List.length = some cfg.attempts)
      ∧ ∀ rs, probeRun cfg isPb oracle = some rs →
          ∀ j (hj : j < rs.length), rs[j].seq = j := by
  rcases Option.isSome_iff_exists.mp (hfin 0 h1) with ⟨r0, hr0⟩
  have hseq0 : r0.seq = 0 := attemptResult_seq cfg isPb 0 (oracle 0) r0 hr0
  have hspec := checkLoopAux_spec cfg isPb oracle (cfg.attempts - 1) 1 [r0]
    (fun k hk1 hk2 => hfin k (by omega)) (by simp)
    (by
      intro j hj
      simp only [List.length_singleton] at hj
      have hj0 : j = 0 := by omega
      subst hj0
      simpa using hseq0)
  rcases hspec with ⟨rs, hcl, hlen, hseq⟩
  have hrun : probeRun cfg isPb oracle = some rs := by
    simp only [probeRun, hr0, checkLoop]
    exact hcl
  constructor
  · rw [hrun, Option.map_some']
    congr 1
    omega
  · intro rs2 hrs2 j hj
    rw [hrun, Option.some.injEq] at hrs2
    subst hrs2
    exact hseq j hj

/-- C2 witness: two plain-mode attempts that both connect. -/
theorem results_length_and_seq_witness :
    (probeRun ({ attempts := 2 } : ProbeCfg) false
        (fun _ => AttemptTrace.plainT (PlainTrigger.connected 7))).map List.length
      = some 2 :=
  (results_length_and_seq ({ attempts := 2 } : ProbeCfg) false
      (fun _ => AttemptTrace.plainT (PlainTrigger.connected 7))
      (by decide) (fun k _ => rfl)).1

/-! ### C6: total inbound data strictly exceeding the cap -/

theorem bufAppend_len_flag (maxB : Nat) (buf c : List Nat) (e : Bool)
    (hle : buf.length ≤ maxB) :
    (bufAppend maxB buf c e).1.length = min (buf.length + c.length) maxB
      ∧ (bufAppend maxB buf c e).2
          = (e || decide (maxB < buf.length + c.length)) := by
  simp only [bufAppend]
  by_cases h1 : buf.length + c.length ≤ maxB
  · simp only [if_pos h1]
    have hnot : ¬ maxB < ((buf ++ c, e) : List Nat × Bool).1.length := by
      show ¬ maxB < (buf ++ c).length
      simp only [List.length_append]; omega
    rw [if_neg hnot]
    constructor
    · show (buf ++ c).length = _
      simp only [List.length_append]; omega
    · show e = _
      have hd : decide (maxB < buf.length + c.length) = false := by
        simp only [decide_eq_false_iff_not]; omega
      rw [hd, Bool.or_false]
  · simp only [if_neg h1]
    by_cases h2 : buf.length ≥ maxB ∧ 0 < c.length
    · simp only [if_pos h2]
      have hnot : ¬ maxB < ((buf, true) : List Nat × Bool).1.length := by
        show ¬ maxB < buf.length
        omega
      rw [if_neg hnot]
      constructor
      · show buf.length = _
        omega
      · show true = _
        have hd : decide (maxB < buf.length + c.length) = true := by
          simp only [decide_eq_true_eq]; omega
        rw [hd, Bool.or_true]
    · have hcl : 0 < c.length := by omega
      have hblt : buf.length < maxB := by
        rcases Nat.lt_or_ge buf.length maxB with h | h
        · exact h
        · exact absurd ⟨h, hcl⟩ h2
      simp only [if_neg h2, if_pos hcl]
      have hlen3 : (buf ++ List.take (maxB - buf.length) c).length = maxB := by
        simp only [List.length_append, List.length_take]; omega
      have hnot : ¬ maxB <
          ((buf ++ List.take (maxB - buf.length) c, true) : List Nat × Bool).1.length := by
        show ¬ maxB < (buf ++ List.take (maxB - buf.length) c).length
        rw [hlen3]; omega
      rw [if_neg hnot]
      constructor
      · show (buf ++ List.take (maxB - buf.length) c).length = _
        rw [hlen3]; omega
      · show true = _
        have hd : decide (maxB < buf.length + c.length) = true := by
          simp only [decide_eq_true_eq]; omega
        rw [hd, Bool.or_true]

theorem onData_main (cfg : ProbeCfg) (st : ProbeState) (c : List Nat)
    (B : List Nat) (hb : st.responseBuffer = some B)
    (hp : st.didPushResults = false) :
    (onData cfg st c).didPushResults = false
      ∧ (onData cfg st c).pushed = st.pushed
      ∧ (onData cfg st c).connectTime = st.connectTime
      ∧ (onData cfg st c).seqNo = st.seqNo
      ∧ (onData cfg st c).responseBuffer
          = some (bufAppend cfg.maxResponseBytes B c st.didExceedResponseBytes).1
      ∧ (onData cfg st c).didExceedResponseBytes
          = (bufAppend cfg.maxResponseBytes B c st.didExceedResponseBytes).2
      ∧ (onData cfg st c).lastErr
          = (if (bufAppend cfg.maxResponseBytes B c st.didExceedResponseBytes).2 = true
             then some (st.lastErr.getD JsError.maxResponseBytesExceeded)
             else st.lastErr) := by
  unfold onData
  rw [hb]
  simp only [hp]
  refine ⟨?_, ?_, ?_, ?_, ?_, ?_, ?_⟩ <;>
    cases hm : cfg.matchCfg <;>
      simp_all [apply_ite ProbeState.didPushResults, apply_ite ProbeState.pushed,
        apply_ite ProbeState.connectTime, apply_ite ProbeState.seqNo,
        apply_ite ProbeState.responseBuffer, apply_ite ProbeState.didExceedResponseBytes,
        apply_ite ProbeState.lastErr]

theorem dataFold_exceed (cfg : ProbeCfg) (chunks : List (List Nat)) :
    ∀ (st : ProbeState) (received : Nat),
      st.didPushResults = false →
      (∃ B, st.responseBuffer = some B
        ∧ B.length = min received cfg.maxResponseBytes) →
      st.didExceedResponseBytes = decide (cfg.maxResponseBytes < received) →
      st.lastErr = (if cfg.maxResponseBytes < received
                    then some JsError.maxResponseBytesExceeded else none) →
      ((chunks.map Event.data).foldl (step cfg) st).didPushResults = false
        ∧ ((chunks.map Event.data).foldl (step cfg) st).pushed = st.pushed
        ∧ (∃ B2, ((chunks.map Event.data).foldl (step cfg) st).responseBuffer = some B2
            ∧ B2.length = min (received + (chunks.map List.length).sum)
                cfg.maxResponseBytes)
        ∧ ((chunks.map Event.data).foldl (step cfg) st).lastErr
            = (if cfg.maxResponseBytes < received + (chunks.map List.length).sum
               then some JsError.maxResponseBytesExceeded else none) := by
  induction chunks with
  | nil =>
      intro st received hp hB hex herr
      exact ⟨hp, rfl, hB, herr⟩
  | cons c rest ih =>
      intro st received hp hB hex herr
      rcases hB with ⟨B, hsome, hBlen⟩
      have hBle : B.length ≤ cfg.maxResponseBytes := by omega
      have hmain := onData_main cfg st c B hsome hp
      rcases hmain with ⟨m1, m2, m3, m4, m5, m6, m7⟩
      have hba := bufAppend_len_flag cfg.maxResponseBytes B c
        st.didExceedResponseBytes hBle
      have hstep : step cfg st (Event.data c) = onData cfg st c := rfl
      simp only [List.map_cons, List.foldl_cons, hstep]
      have hrec := ih (onData cfg st c) (received + c.length)
        m1
        (by
          refine ⟨(bufAppend cfg.maxResponseBytes B c st.didExceedResponseBytes).1,
            m5, ?_⟩
          rw [hba.1]
          omega)
        (by
          rw [m6, hba.2, hex]
          by_cases hcase : cfg.maxResponseBytes < received
          · have h1 : decide (cfg.maxResponseBytes < received) = true := by
              simp only [decide_eq_true_eq]; exact hcase
            have h2 : decide (cfg.maxResponseBytes < received + c.length) = true := by
              simp only [decide_eq_true_eq]; omega
            rw [h1, h2, Bool.true_or]
          · have h1 : decide (cfg.maxResponseBytes < received) = false := by
              simp only [decide_eq_false_iff_not]; exact hcase
            have h2 : decide (cfg.maxResponseBytes < B.length + c.length)
                = decide (cfg.maxResponseBytes < received + c.length) := by
              have : B.length = received := by omega
              rw [this]
            rw [h1, Bool.false_or, h2])
        (by
          rw [m7, hba.2, hex, herr]
          by_cases hcase : cfg.maxResponseBytes < received + c.length
          · have hflag : (decide (cfg.maxResponseBytes < received)
                || decide (cfg.maxResponseBytes < B.length + c.length)) = true := by
              by_cases hr : cfg.maxResponseBytes < received
              · simp [hr]
              · have : B.length = received := by omega
                rw [this]
                simp only [decide_eq_true_eq, Bool.or_eq_true, decide_eq_true_eq]
                omega
            rw [hflag, if_pos rfl, if_pos hcase]
            by_cases hr : cfg.maxResponseBytes < received
            · rw [if_pos hr]; rfl
            · rw [if_neg hr]; rfl
          · have hr : ¬ cfg.maxResponseBytes < received := by omega
            have hflag : (decide (cfg.maxResponseBytes < received)
                || decide (cfg.maxResponseBytes < B.length + c.length)) = false := by
              have : B.length = received := by omega
              rw [this]
              simp only [Bool.or_eq_false_iff, decide_eq_false_iff_not]
              omega
            rw [hflag, if_neg (by simp), if_neg hcase, if_neg hr])
      rcases hrec with ⟨r1, r2, r3, r4⟩
      refine ⟨r1, by rw [r2, m2], ?_, ?_⟩
      · rcases r3 with ⟨B2, hB2, hB2len⟩
        refine ⟨B2, hB2, ?_⟩
        rw [hB2len]
        simp only [List.map_cons, List.sum_cons]
        omega
      · rw [r4]
        simp only [List.map_cons, List.sum_cons]
        by_cases hcase : cfg.maxResponseBytes < received + (c.length
            + (rest.map List.length).sum)
        · rw [if_pos (by omega), if_pos hcase]
        · rw [if_neg (by omega), if_neg hcase]

/-- C6: when total inbound data strictly exceeds `maxResponseBytes`, the
attempt finalizes with error `Max Response Bytes Exceeded` and
`bytes = maxResponseBytes`; a chunk overflowing the budget is truncated
(its prefix kept) rather than dropped, and a chunk exactly filling the
remaining budget is appended without setting the exceeded flag. -/
theorem exceeded_bytes_finalize (cfg : ProbeCfg) (i : Nat) (t tc : ℚ)
    (chunks : List (List Nat))
    (hover : cfg.maxResponseBytes < (chunks.map List.length).sum) :
    ((runProbeEvents cfg i
          (Event.connect t :: (chunks.map Event.data ++ [Event.close tc]))).pushed.map
        (fun r => (r.err, r.bytes))
      = [(some JsError.maxResponseBytesExceeded, some cfg.maxResponseBytes)])
    ∧ (∀ (maxB : Nat) (buf chunk : List Nat) (e : Bool),
        buf.length + chunk.length = maxB →
        bufAppend maxB buf chunk e = (buf ++ chunk, e))
    ∧ (∀ (maxB : Nat) (buf chunk : List Nat) (e : Bool),
        buf.length < maxB → maxB < buf.length + chunk.length →
        bufAppend maxB buf chunk e = (buf ++ chunk.take (maxB - buf.length), true)) := by
  refine ⟨?_, ?_, ?_⟩
  · have hfold := dataFold_exceed cfg chunks
      (step cfg (initProbeState i) (Event.connect t)) 0 rfl
      ⟨[], rfl, by simp⟩ rfl rfl
    rcases hfold with ⟨f1, f2, ⟨B2, hB2, hB2len⟩, f4⟩
    have hrun : runProbeEvents cfg i
        (Event.connect t :: (chunks.map Event.data ++ [Event.close tc]))
        = step cfg
            ((chunks.map Event.data).foldl (step cfg)
              (step cfg (initProbeState i) (Event.connect t)))
            (Event.close tc) := by
      rw [runProbeEvents, List.foldl_cons, List.foldl_append, List.foldl_cons,
        List.foldl_nil]
    have hpush : (step cfg
        ((chunks.map Event.data).foldl (step cfg)
          (step cfg (initProbeState i) (Event.connect t)))
        (Event.close tc)).pushed
        = [finalResult cfg
            ((chunks.map Event.data).foldl (step cfg)
              (step cfg (initProbeState i) (Event.connect t))) none tc] := by
      show (probeResultCheck cfg _ none tc).pushed = _
      rw [probeResultCheck_pushed, if_neg (by rw [f1]; simp)]
      rw [f2]
      rfl
    have herr2 : (finalResult cfg
        ((chunks.map Event.data).foldl (step cfg)
          (step cfg (initProbeState i) (Event.connect t))) none tc).err
        = some JsError.maxResponseBytesExceeded := by
      show ((chunks.map Event.data).foldl (step cfg)
        (step cfg (initProbeState i) (Event.connect t))).lastErr = _
      rw [f4, if_pos (by omega)]
    have hbytes2 : (finalResult cfg
        ((chunks.map Event.data).foldl (step cfg)
          (step cfg (initProbeState i) (Event.connect t))) none tc).bytes
        = some cfg.maxResponseBytes := by
      show (((chunks.map Event.data).foldl (step cfg)
        (step cfg (initProbeState i) (Event.connect t))).responseBuffer).map
          List.length = _
      rw [hB2]
      simp only [Option.map_some', Option.some.injEq]
      rw [hB2len]
      omega
    rw [hrun, hpush]
    simp only [List.map_cons, List.map_nil]
    rw [herr2, hbytes2]
  · intro maxB buf chunk e h
    simp only [bufAppend]
    rw [if_pos (show buf.length + chunk.length ≤ maxB by omega)]
    have hnot : ¬ maxB < ((buf ++ chunk, e) : List Nat × Bool).1.length := by
      show ¬ maxB < (buf ++ chunk).length
      simp only [List.length_append]; omega
    rw [if_neg hnot]
  · intro maxB buf chunk e hlt hgt
    simp only [bufAppend]
    rw [if_neg (show ¬ buf.length + chunk.length ≤ maxB by omega),
      if_neg (show ¬ (buf.length ≥ maxB ∧ 0 < chunk.length) by omega),
      if_pos (show 0 < chunk.length by omega)]
    have hnot : ¬ maxB <
        ((buf ++ chunk.take (maxB - buf.length), true) : List Nat × Bool).1.length := by
      show ¬ maxB < (buf ++ chunk.take (maxB - buf.length)).length
      simp only [List.length_append, List.length_take]; omega
    rw [if_neg hnot]

/-- C6 witness: cap 2, a single 3-byte chunk. -/
theorem exceeded_bytes_finalize_witness :
    ((runProbeEvents ({ maxResponseBytes := 2 } : ProbeCfg) 0
          (Event.connect 1 :: ([[1, 2, 3]].map Event.data ++ [Event.close 2]))).pushed.map
        (fun r => (r.err, r.bytes))
      = [(some JsError.maxResponseBytesExceeded, some 2)]) :=
  (exceeded_bytes_finalize ({ maxResponseBytes := 2 } : ProbeCfg) 0 1 2 [[1, 2, 3]]
    (by decide)).1

/-! ### C7: what the idle timeout records -/

/-- C7 (amended): in probe mode the idle-timeout finalize (which calls
`probeResultCheck({})` with no error, src/ping.js lines 291-293) records the
attempt with NO error; only in plain mode does the idle timeout record
`err = Error('Request timeout')` (lines 312-317). -/
theorem idle_timeout_error_amended :
    (∀ (cfg : ProbeCfg) (i : Nat) (t : ℚ),
        (runProbeEvents cfg i [Event.idleTimeout t]).pushed.map (fun r => r.err)
          = [none])
      ∧ (∀ (cfg : ProbeCfg) (i : Nat) (tc t : ℚ),
          (runProbeEvents cfg i [Event.connect tc, Event.idleTimeout t]).pushed.map
              (fun r => r.err) = [none])
      ∧ ∀ i : Nat, (plainAttemptResult i PlainTrigger.idleTimeout).err
          = some JsError.requestTimeout := by
  refine ⟨?_, ?_, fun i => rfl⟩
  · intro cfg i t
    show (probeResultCheck cfg (initProbeState i) none t).pushed.map _ = _
    rw [probeResultCheck_pushed, if_neg (by simp [initProbeState])]
    rfl
  · intro cfg i tc t
    show (probeResultCheck cfg (step cfg (initProbeState i) (Event.connect tc))
        none t).pushed.map _ = _
    rw [probeResultCheck_pushed, if_neg (by simp [step, initProbeState])]
    rfl

/-- C7 counterexample: a probe-mode attempt finalized by the bare idle
timeout records `err` ABSENT (and a defined `time`), not `SocketTimeout`. -/
theorem idle_timeout_cex :
    (runProbeEvents ({} : ProbeCfg) 0
        [Event.connect 1, Event.idleTimeout 5000]).pushed.map
        (fun r => (r.err, r.time))
      = [(none, some 5000)] := by
  decide

/-! ### C8: which attempts enter the aggregates -/

theorem droppedFold_acc (rs : List AttemptResult) : ∀ n : Nat,
    rs.foldl (fun prev curr => if curr.time = none then prev + 1 else prev) n
      = n + rs.foldl (fun prev curr => if curr.time = none then prev + 1 else prev) 0 := by
  induction rs with
  | nil => intro n; simp
  | cons r rs ih =>
      intro n
      simp only [List.foldl_cons]
      rw [ih (if r.time = none then n + 1 else n),
        ih (if r.time = none then 0 + 1 else 0)]
      by_cases h : r.time = none
      · rw [if_pos h, if_pos h]; omega
      · rw [if_neg h, if_neg h]; omega

theorem dropped_add_defined (rs : List AttemptResult) :
    droppedOf rs + (rs.filterMap (fun r => r.time)).length = rs.length := by
  induction rs with
  | nil => rfl
  | cons r rs ih =>
      unfold droppedOf at ih ⊢
      simp only [List.foldl_cons]
      rw [droppedFold_acc]
      by_cases h : r.time = none
      · rw [if_pos h]
        simp only [List.filterMap_cons, h, List.length_cons]
        omega
      · rw [if_neg h]
        rcases Option.ne_none_iff_exists'.mp h with ⟨tv, htv⟩
        simp only [List.filterMap_cons, htv, List.length_cons]
        omega

theorem avgSumFold_acc (rs : List AttemptResult) : ∀ q : ℚ,
    rs.foldl (fun prev curr =>
        match curr.time with | none => prev | some tv => prev + tv) q
      = q + rs.foldl (fun prev curr =>
          match curr.time with | none => prev | some tv => prev + tv) 0 := by
  induction rs with
  | nil => intro q; simp
  | cons r rs ih =>
      intro q
      simp only [List.foldl_cons]
      rw [ih (match r.time with | none => q | some tv => q + tv),
        ih (match r.time with | none => (0 : ℚ) | some tv => 0 + tv)]
      cases h : r.time with
      | none => simp
      | some tv => simp; ring

theorem avgSum_eq_defined (rs : List AttemptResult) :
    avgSumOf rs = (rs.filterMap (fun r => r.time)).sum := by
  induction rs with
  | nil => rfl
  | cons r rs ih =>
      unfold avgSumOf at ih ⊢
      simp only [List.foldl_cons]
      rw [avgSumFold_acc]
      cases h : r.time with
      | none => simp [List.filterMap_cons, h, ih]
      | some tv =>
          simp only [List.filterMap_cons, h, List.sum_cons, ih]
          ring

/-- C8 (amended): `avg` is computed only over the attempts with a defined
`time` — the reducer skips undefined times and the divisor
`results.length - dropped` counts exactly the defined ones.  (`max`/`min`
are NOT so protected: their fold is seeded from `results[0].time` and an
undefined `time` resets the accumulator, see the counterexample.) -/
theorem avg_over_defined_only (cfg : ProbeCfg) (isPb : Bool)
    (rs : List AttemptResult) (hne : rs ≠ [])
    (hnz : (rs.filterMap (fun r => r.time)).length ≠ 0) :
    (aggregate cfg isPb rs).map (fun rep => rep.avg)
      = some (some ((rs.filterMap (fun r => r.time)).sum
          / (((rs.filterMap (fun r => r.time)).length : Nat) : ℚ))) := by
  rcases rs with _ | ⟨r0, rest⟩
  · exact absurd rfl hne
  have hdenom : (r0 :: rest).length - droppedOf (r0 :: rest)
      = ((r0 :: rest).filterMap (fun r => r.time)).length := by
    have := dropped_add_defined (r0 :: rest)
    omega
  cases isPb <;>
    · simp only [aggregate, List.head?_cons, Option.map_some', Bool.false_eq_true,
        if_false, if_true]
      simp only [hdenom, Option.some.injEq]
      rw [if_neg hnz, avgSum_eq_defined]

/-- C8 witness: a single attempt with a defined time. -/
theorem avg_over_defined_only_witness :
    (aggregate ({} : ProbeCfg) false [{ seq := 0, time := some 4 }]).map
        (fun rep => rep.avg)
      = some (some ((([{ seq := 0, time := some 4 }] : List AttemptResult).filterMap
            (fun r => r.time)).sum
          / (((([{ seq := 0, time := some 4 }] : List AttemptResult).filterMap
            (fun r => r.time)).length : Nat) : ℚ))) :=
  avg_over_defined_only ({} : ProbeCfg) false [{ seq := 0, time := some 4 }]
    (by decide) (by decide)

/-- C8 counterexample: with times `[5, undefined, 3]` the source computes
`max = 3` (the dropped attempt resets the fold accumulator to `undefined`),
while without the dropped attempt it computes `max = 5` — so an attempt
with absent time does contribute to `max`. -/
theorem max_includes_dropped_cex :
    ((aggregate ({} : ProbeCfg) false
          [{ seq := 0, time := some 5 }, { seq := 1 },
            { seq := 2, time := some 3 }]).map (fun rep => rep.max)
        = some (some 3))
      ∧ ((aggregate ({} : ProbeCfg) false
          [{ seq := 0, time := some 5 }, { seq := 2, time := some 3 }]).map
            (fun rep => rep.max)
        = some (some 5)) := by
  decide

/-! ### C9: mode derivation and JavaScript truthiness -/

theorem opt_filter_isSome {α : Type} (p : α → Bool) (x : Option α) :
    (x.filter p).isSome = x.any p := by
  cases x with
  | none => rfl
  | some a =>
      cases hp : p a <;> simp [Option.filter, Option.any, hp]

/-- C9 (amended): probe mode is active iff one of the five options holds a
TRUTHY value — mode derivation equals the spec's presence test applied
after discarding falsy-encoded values (empty string, `false`, `0`). -/
theorem mode_is_truthy_presence (o : CallerOptions) :
    isProbe o = specIsProbe (truthyOnly o) := by
  simp only [isProbe, specIsProbe, truthyOnly, opt_filter_isSome]

/-- C9 counterexample: `request: ""` is explicitly set but falsy, so the
source derives plain mode where the claim requires probe mode. -/
theorem mode_falsy_values_cex :
    isProbe { request := some (BytesLike.jsStr "") } = false
      ∧ specIsProbe { request := some (BytesLike.jsStr "") } = true := by
  decide

/-! ### C10: attempts = 0 -/

theorem aggregate_cons_isSome (cfg : ProbeCfg) (isPb : Bool) (r : AttemptResult)
    (rest : List AttemptResult) : (aggregate cfg isPb (r :: rest)).isSome = true := by
  simp only [aggregate, List.head?_cons]
  cases isPb <;> simp

/-- C10 counterexample: the Result Aggregator itself DOES assume a
non-empty results sequence — evaluated at the empty sequence it reaches the
`results[0].time` access on `undefined` (the modelled `TypeError`). -/
theorem empty_results_aggregate_crash :
    aggregate ({} : ProbeCfg) false [] = none := rfl

/-- C10 (amended): invoking probe with `attempts = 0` still runs one
attempt — `connect` is called before the `i < attempts` check — so
aggregation receives one result, never the empty sequence, and the
invocation terminates with a report rather than an exception. -/
theorem attempts_zero_still_reports (cfg : ProbeCfg) (isPb : Bool)
    (oracle : Nat → AttemptTrace) (h0 : cfg.attempts = 0)
    (hfin : (attemptResult cfg isPb 0 (oracle 0)).isSome = true) :
    ((probeRun cfg isPb oracle).map List.length = some 1)
      ∧ (probeInvoke cfg isPb oracle).isReport = true := by
  rcases Option.isSome_iff_exists.mp hfin with ⟨r, hr⟩
  have hrun : probeRun cfg isPb oracle = some [r] := by
    simp only [probeRun, hr, checkLoop, h0]
    rfl
  constructor
  · rw [hrun]; rfl
  · simp only [probeInvoke, hrun]
    rcases Option.isSome_iff_exists.mp (aggregate_cons_isSome cfg isPb r [])
      with ⟨rep, hrep⟩
    rw [hrep]
    rfl

/-- C10 witness: `attempts = 0`, plain mode, a connecting attempt. -/
theorem attempts_zero_still_reports_witness :
    ((probeRun ({ attempts := 0 } : ProbeCfg) false
          (fun _ => AttemptTrace.plainT (PlainTrigger.connected 5))).map List.length
        = some 1)
      ∧ (probeInvoke ({ attempts := 0 } : ProbeCfg) false
          (fun _ => AttemptTrace.plainT (PlainTrigger.connected 5))).isReport
        = true :=
  attempts_zero_still_reports ({ attempts := 0 } : ProbeCfg) false
    (fun _ => AttemptTrace.plainT (PlainTrigger.connected 5)) rfl rfl

/-! ### C3: which option arms the response-deadline timer -/

/-- C3: the source arms the response-deadline timer with `options.timeout`
(src/ping.js line 209) — `options.responseTimeout` is never read — so with
`responseTimeout: 200` and `timeout: 5000` the timer fires (with error
`Response timeout`) only after the full 5000 ms, contradicting the claim
and the README's documentation of `responseTimeout`. -/
theorem response_deadline_ignores_responseTimeout :
    responseDeadlineDelay
        ({ timeout := 5000, responseTimeout := some 200 } : ProbeCfg) = 5000
      ∧ ({ timeout := 5000, responseTimeout := some 200 } : ProbeCfg).responseTimeout
          = some 200
      ∧ responseDeadlineDelay
          ({ timeout := 5000, responseTimeout := some 200 } : ProbeCfg) ≠ 200
      ∧ ((runProbeEvents ({ timeout := 5000, responseTimeout := some 200 } : ProbeCfg)
            0 [Event.connect 1, Event.responseDeadline 5000]).pushed.map
          (fun r => (r.err, r.time))
        = [(some JsError.responseTimeout, some 5000)]) := by
  refine ⟨rfl, rfl, by decide, by decide⟩

end TcpProbe
